import Mathlib

/-!
Shallow embedding of the environment-variable resolution core of the repository,
file `src/utils/env/index.js`.

Modelling conventions:
- JS strings are Lean `String`; the JS `<` operator on strings is `lexLt` on the
  character data; `toLowerCase` is modelled character-wise via `Char.toLower`
  (ASCII case folding, which covers every key used by the specification).
- A JS plain object used as a dictionary is an association list
  `List (String × α)` in insertion order.  The spread `\x7b...a, [k]: v\x7d` update is
  `jsInsert` (replace in place when the key exists, append otherwise), the
  object-literal merge of several spreads is `jsMerge`, and property lookup is
  `jsLookup`.
- `undefined` is `Option.none` where a value may be absent.
- Fallible async code returns `Except`.  The functions here are synchronous in
  the model; the two concurrent fetches of `getEnvelopeEnv` are joined in order,
  which is observationally equal because the fetch function never throws.
- `api` (the store client) is a record of two functions returning `Except`.
- The heterogeneous return of `fetchEnvelopeItems` (a plain object `\x7b\x7d` on the
  undefined-account early return, an array otherwise) is the sum `FetchReturn`;
  calling `.filter` on the non-array variant is the JS `TypeError`, surfaced by
  `formatEnvelopeDataJS`.
-/

deriving instance DecidableEq for Except

namespace Cli

/-- Strict lexicographic comparison of character lists: the JS `<` operator on
strings, comparing code units left to right. -/
def lexLt : List Char → List Char → Bool
  | [], [] => false
  | [], _ :: _ => true
  | _ :: _, [] => false
  | a :: as, b :: bs => if a < b then true else if b < a then false else lexLt as bs

/-- JS `String.prototype.toLowerCase`, modelled as ASCII character-wise lowering. -/
def toLowerJS (s : String) : String := ⟨s.data.map Char.toLower⟩

/-- The JS sort comparator `left.key.toLowerCase() < right.key.toLowerCase()`
at the level of the two lowered strings. -/
def strLtCI (a b : String) : Bool := lexLt (toLowerJS a).data (toLowerJS b).data

/-- Case-insensitive "a sorts no later than b" on strings: the comparator of the
source (which returns -1 or 1, never 0) does not order `b` strictly before `a`. -/
def keyLE (a b : String) : Prop := strLtCI b a = false

instance : DecidableRel keyLE := fun a b => instDecidableEqBool (strLtCI b a) false

/-- One candidate value of an Envelope item: a deploy context tag, the optional
branch name (`context_parameter`, absent unless the tag is `branch`), and the value. -/
structure EnvValue where
  context : String
  context_parameter : Option String
  value : String
deriving DecidableEq

/-- One raw Envelope record: `\x7b key, scopes, values \x7d`. -/
structure EnvelopeItem where
  key : String
  scopes : List String
  values : List EnvValue
deriving DecidableEq

/-- One resolved environment variable as produced by `formatEnvelopeData` and as
stored in the locally-known `env` dictionary: `\x7b context, branch, scopes, sources,
value \x7d`, with `undefined` fields as `none`. -/
structure EnvVar where
  context : Option String
  branch : Option String
  scopes : List String
  sources : List String
  value : String
deriving DecidableEq

/-- The dictionary of environment variables (a JS object in insertion order). -/
abbrev EnvDict := List (String × EnvVar)

/-- The site object; `account_slug` and `id` may be `undefined`. -/
structure SiteInfo where
  account_slug : Option String
  id : Option String
deriving DecidableEq

/-- Classes of errors a store-client fetch can reject with. -/
inductive FetchError where
  | permission
  | network
  | authExpired
  | server
deriving DecidableEq

/-- Errors a resolution can surface: a JS `TypeError` (calling `.filter` on a
non-array) or a propagated fetch rejection. -/
inductive JsError where
  | typeError
  | fetchError (e : FetchError)
deriving DecidableEq

/-- What `fetchEnvelopeItems` evaluates to: the plain object `\x7b\x7d` (its
undefined-account early return) or an array of Envelope items. -/
inductive FetchReturn where
  | dict
  | arr (items : List EnvelopeItem)
deriving DecidableEq

/-- The store client (`api` singleton): `getEnvVar(\x7baccountId, key, siteId\x7d)` and
`getEnvVars(\x7baccountId, siteId\x7d)`. -/
structure Api where
  getEnvVar : String → String → Option String → Except FetchError EnvelopeItem
  getEnvVars : String → Option String → Except FetchError (List EnvelopeItem)

/-- `AVAILABLE_CONTEXTS` from the source. -/
def AVAILABLE_CONTEXTS : List String :=
  ["all", "production", "deploy-preview", "branch-deploy", "dev"]

/-- `AVAILABLE_SCOPES` from the source. -/
def AVAILABLE_SCOPES : List String :=
  ["builds", "functions", "runtime", "post_processing"]

/-- `normalizeContext` from the source: empty (falsy) input passes through; the
synonym table `\x7b dp: deploy-preview, prod: production \x7d` is applied; then a
leading "branch:" (the regex `^branch:`) is stripped.  The `undefined` input of
the JS signature is modelled by the empty string, which is likewise falsy. -/
def normalizeContext (context : String) : String :=
  if context = "" then context
  else
    let context :=
      if context = "dp" then "deploy-preview"
      else if context = "prod" then "production"
      else context
    if context.data.take 7 = "branch:".data then ⟨context.data.drop 7⟩ else context

/-- `findValueInValues` from the source: when the requested context is not one of
`AVAILABLE_CONTEXTS` it is a branch name, and a value matches when its tag is
`branch` or `all` and its `context_parameter` equals the branch (JS `===`, so an
absent `context_parameter` never equals a string); otherwise a value matches when
its tag is the requested context or `all`. -/
def findValueInValues (values : List EnvValue) (context : String) : Option EnvValue :=
  values.find? fun val =>
    if !(AVAILABLE_CONTEXTS.contains context) then
      ["branch", "all"].contains val.context && val.context_parameter == some context
    else
      [context, "all"].contains val.context

/-- `filterEnvBySource` from the source: keep the entries whose first recorded
source (`variable.sources[0]`, `undefined` when the list is empty) is `source`. -/
def filterEnvBySource (env : EnvDict) (source : String) : EnvDict :=
  env.filter fun kv => kv.2.sources.head? == some source

/-- `fetchEnvelopeItems` from the source.  With an undefined `accountId` it
returns the plain object `\x7b\x7d` (not an array).  Otherwise a truthy `key` fetches
one variable and wraps it in a singleton array, an empty `key` fetches the whole
list, and the surrounding try/catch turns ANY rejection into the empty array.
The result type allows an error so that the absence of propagation is a fact of
the definition, not of the type. -/
def fetchEnvelopeItems (api : Api) (accountId : Option String) (key : String)
    (siteId : Option String) : Except JsError FetchReturn :=
  match accountId with
  | none => .ok .dict
  | some aid =>
    if key ≠ "" then
      match api.getEnvVar aid key siteId with
      | .ok envelopeItem => .ok (.arr [envelopeItem])
      | .error _ => .ok (.arr [])
    else
      match api.getEnvVars aid siteId with
      | .ok envelopeItems => .ok (.arr envelopeItems)
      | .error _ => .ok (.arr [])

/-- The JS object update `\x7b ...acc, [k]: v \x7d`: when `k` is already a key its
value is replaced in place (position kept), otherwise the pair is appended. -/
def jsInsert (acc : List (String × α)) (k : String) (v : α) : List (String × α) :=
  if acc.any (fun kv => kv.1 == k) then
    acc.map fun kv => if kv.1 == k then (k, v) else kv
  else acc ++ [(k, v)]

/-- Merging one object into another by spreading, left to right. -/
def jsMerge (a b : List (String × α)) : List (String × α) :=
  b.foldl (fun acc kv => jsInsert acc kv.1 kv.2) a

/-- JS property lookup on the dictionary model. -/
def jsLookup (dict : List (String × α)) (k : String) : Option α :=
  (dict.find? fun kv => kv.1 == k).map fun kv => kv.2

/-- Ordering of Envelope items used by the sort of `formatEnvelopeData` and
`translateFromEnvelopeToMongo` (case-insensitive, by key). -/
def itemLE (x y : EnvelopeItem) : Prop := keyLE x.key y.key

instance : DecidableRel itemLE := fun x y =>
  instDecidableEqBool (strLtCI y.key x.key) false

/-- The reduce step of `formatEnvelopeData`: destructure the value the Value
Selector finds for the item (already known to exist after the context filter)
and add the projected record under the item key. -/
def formatStep (context source : String) (acc : EnvDict) (cur : EnvelopeItem) : EnvDict :=
  match findValueInValues cur.values context with
  | some v =>
    jsInsert acc cur.key
      { context := some v.context, branch := v.context_parameter,
        scopes := cur.scopes, sources := [source], value := v.value }
  | none => acc

/-- `formatEnvelopeData` from the source: filter by context (the Value Selector
must find a match), filter by scope (`any` keeps everything), sort by key
case-insensitively, then build the output object, stamping `sources = [source]`.
The JS defaults are `context = "dev"`, `envelopeItems = []`, `scope = "any"`;
call sites of this file pass every argument explicitly. -/
def formatEnvelopeData (context : String) (envelopeItems : List EnvelopeItem)
    (scope : String) (source : String) : EnvDict :=
  (List.insertionSort itemLE
      ((envelopeItems.filter fun it => (findValueInValues it.values context).isSome).filter
        fun it => if scope = "any" then true else it.scopes.contains scope)).foldl
    (formatStep context source) []

/-- Applying `formatEnvelopeData` to whatever `fetchEnvelopeItems` returned, as
`getEnvelopeEnv` does: on the non-array variant the call `envelopeItems.filter`
is a JS `TypeError`. -/
def formatEnvelopeDataJS (context : String) (fetched : FetchReturn) (scope : String)
    (source : String) : Except JsError EnvDict :=
  match fetched with
  | .dict => .error .typeError
  | .arr items => .ok (formatEnvelopeData context items scope source)

/-- The config-file gate of `getEnvelopeEnv`, hoisted to a named definition:
`[any, builds, post_processing].includes(scope)`. -/
def includeConfigEnvVars (scope : String) : Bool :=
  ["any", "builds", "post_processing"].contains scope

/-- `getEnvelopeEnv` from the source.  The JS defaults are `context = "dev"`,
`key = ""`, `scope = "any"`; call sites of this file pass every argument
explicitly.  The two fetches are awaited jointly; since `fetchEnvelopeItems`
never rejects, sequencing them is observationally equal.  The five buckets are
then merged in ascending precedence by spreading. -/
def getEnvelopeEnv (api : Api) (context : String) (env : EnvDict) (key : String)
    (scope : String) (siteInfo : SiteInfo) : Except JsError EnvDict := do
  let accountId := siteInfo.account_slug
  let siteId := siteInfo.id
  let accountEnvelopeItems ← fetchEnvelopeItems api accountId key none
  let siteEnvelopeItems ← fetchEnvelopeItems api accountId key siteId
  let accountEnv ← formatEnvelopeDataJS context accountEnvelopeItems scope "account"
  let siteEnv ← formatEnvelopeDataJS context siteEnvelopeItems scope "ui"
  let generalEnv := filterEnvBySource env "general"
  let addonsEnv := filterEnvBySource env "addons"
  let configFileEnv := filterEnvBySource env "configFile"
  return jsMerge
    (jsMerge (jsMerge (jsMerge generalEnv accountEnv)
        (if includeConfigEnvVars scope then addonsEnv else []))
      siteEnv)
    (if includeConfigEnvVars scope then configFileEnv else [])

/-- The `HUMAN_SCOPES` table as a lookup.  An unknown scope reads the table at an
absent key, giving `undefined`, which `Array.prototype.join` renders as the empty
string. -/
def humanScope (scope : String) : String :=
  if scope = "builds" then "Builds"
  else if scope = "functions" then "Functions"
  else if scope = "post_processing" then "Post processing"
  else if scope = "runtime" then "Runtime"
  else ""

/-- `getHumanReadableScopes` from the source: falsy (`undefined`) scopes render as
"Builds, Post processing"; a scopes array whose length equals the size of the
`HUMAN_SCOPES` table (4) renders as "All"; otherwise the mapped labels are joined
with ", " in the order of the input array. -/
def getHumanReadableScopes (scopes : Option (List String)) : String :=
  match scopes with
  | none => "Builds, Post processing"
  | some scopes =>
    if scopes.length = 4 then "All"
    else String.intercalate ", " (scopes.map humanScope)

/-- The flat legacy (Mongo) mapping: key to value, in insertion order. -/
abbrev MongoEnv := List (String × String)

/-- The Envelope item `translateFromMongoToEnvelope` builds for one entry. -/
def mongoItem (kv : String × String) : EnvelopeItem :=
  { key := kv.1, scopes := AVAILABLE_SCOPES,
    values := [{ context := "all", context_parameter := none, value := kv.2 }] }

/-- `translateFromMongoToEnvelope` from the source: one item per entry, scopes
set to `AVAILABLE_SCOPES`, a single value tagged `all`. -/
def translateFromMongoToEnvelope (env : MongoEnv) : List EnvelopeItem :=
  env.map mongoItem

/-- The JS disjunction `val.context_parameter || val.context`: an absent or empty
(falsy) `context_parameter` falls through to `context`. -/
def jsOr (p : Option String) (c : String) : String :=
  match p with
  | some s => if s = "" then c else s
  | none => c

/-- The reduce step of `translateFromEnvelopeToMongo`: find the applicable value
and keep the entry when that value is truthy. -/
def translateStep (context : String) (acc : MongoEnv) (cur : EnvelopeItem) : MongoEnv :=
  match cur.values.find? (fun val => [context, "all"].contains (jsOr val.context_parameter val.context)) with
  | some envVar => if envVar.value ≠ "" then jsInsert acc cur.key envVar.value else acc
  | none => acc

/-- `translateFromEnvelopeToMongo` from the source: sort by key (same comparator
as `formatEnvelopeData`), then for each item take the first value whose
`context_parameter || context` is the requested context or `all`; entries with no
match or with a falsy (empty) value are dropped.  The JS default is
`context = "dev"`; call sites of this file pass the context explicitly. -/
def translateFromEnvelopeToMongo (envVars : List EnvelopeItem) (context : String) :
    MongoEnv :=
  (List.insertionSort itemLE envVars).foldl (translateStep context) []

/-- A store client that answers every list fetch with no items and rejects single
fetches (never reached by the claims using it, which pass an empty key). -/
def apiEmpty : Api :=
  { getEnvVar := fun _ _ _ => .error .server
    getEnvVars := fun _ _ => .ok [] }

/-- A store client whose every call rejects with a network error. -/
def apiNetworkErr : Api :=
  { getEnvVar := fun _ _ _ => .error .network
    getEnvVars := fun _ _ => .error .network }

/-- A site with both identifiers present. -/
def siteBoth : SiteInfo := { account_slug := some "acct", id := some "site" }

/-- A site with no account slug (and no id). -/
def siteNoAccount : SiteInfo := { account_slug := none, id := none }

/-- A value tagged `all` carrying the given payload. -/
def allValue (v : String) : EnvValue :=
  { context := "all", context_parameter := none, value := v }

/-- An item with a single `all`-tagged value and the full scope set. -/
def allItem (k v : String) : EnvelopeItem :=
  { key := k, scopes := AVAILABLE_SCOPES, values := [allValue v] }

/-- A locally-known variable whose first source is the given tag. -/
def localVar (source v : String) : EnvVar :=
  { context := some "dev", branch := none, scopes := ["builds"],
    sources := [source], value := v }

/-- Store client for the precedence claim: the account-wide list fetch (no site
id) yields key A with value 2, the site list fetch yields key A with value 3. -/
def apiPrecedence : Api :=
  { getEnvVar := fun _ _ _ => .error .server
    getEnvVars := fun _ siteId =>
      match siteId with
      | none => .ok [allItem "A" "2"]
      | some _ => .ok [allItem "A" "3"] }

/-- An item visible only in the `production` context. -/
def prodOnlyItem : EnvelopeItem :=
  { key := "A", scopes := AVAILABLE_SCOPES,
    values := [{ context := "production", context_parameter := none, value := "v" }] }

/-- Store client for the normalization claim: the site list fetch yields one
production-only item. -/
def apiProdOnly : Api :=
  { getEnvVar := fun _ _ _ => .error .server
    getEnvVars := fun _ siteId =>
      match siteId with
      | none => .ok []
      | some _ => .ok [prodOnlyItem] }

/-- The key and the payload of the single value of an item in the image of
`translateFromMongoToEnvelope` (observer used by the round-trip proof). -/
def itemPair (it : EnvelopeItem) : String × String :=
  (it.key, (it.values.headD (allValue "")).value)

/-! Order-theoretic facts about the comparator. -/

theorem lexLt_nil_right : ∀ (l : List Char), lexLt l [] = false
  | [] => rfl
  | _ :: _ => rfl

theorem lexLt_irrefl : ∀ (l : List Char), lexLt l l = false
  | [] => rfl
  | a :: as => by simp [lexLt, lexLt_irrefl as]

theorem lexLt_trans :
    ∀ (a b c : List Char), lexLt a b = true → lexLt b c = true → lexLt a c = true := by
  intro a
  induction a with
  | nil =>
    intro b c hab hbc
    cases b with
    | nil => simp [lexLt] at hab
    | cons b0 bs =>
      cases c with
      | nil => simp [lexLt_nil_right] at hbc
      | cons c0 cs => simp [lexLt]
  | cons a0 as ih =>
    intro b c hab hbc
    cases b with
    | nil => simp [lexLt_nil_right] at hab
    | cons b0 bs =>
      cases c with
      | nil => simp [lexLt_nil_right] at hbc
      | cons c0 cs =>
        simp only [lexLt] at hab hbc ⊢
        by_cases h1 : a0 < b0
        · by_cases h2 : b0 < c0
          · simp [lt_trans h1 h2]
          · by_cases h3 : c0 < b0
            · simp [h2, h3] at hbc
            · have hbc0 : b0 = c0 := le_antisymm (not_lt.mp h3) (not_lt.mp h2)
              simp [hbc0 ▸ h1]
        · by_cases h2 : b0 < a0
          · simp [h1, h2] at hab
          · have hab0 : a0 = b0 := le_antisymm (not_lt.mp h2) (not_lt.mp h1)
            simp only [h1, if_false, h2, if_false] at hab
            by_cases h3 : b0 < c0
            · simp [hab0 ▸ h3]
            · by_cases h4 : c0 < b0
              · simp [h3, h4] at hbc
              · simp only [h3, if_false, h4, if_false] at hbc
                have h5 : ¬ a0 < c0 := hab0 ▸ h3
                have h6 : ¬ c0 < a0 := hab0 ▸ h4
                simp [h5, h6, ih bs cs hab hbc]

theorem lexLt_connex :
    ∀ (a b : List Char), lexLt a b = false → lexLt b a = false → a = b := by
  intro a
  induction a with
  | nil =>
    intro b hab _
    cases b with
    | nil => rfl
    | cons b0 bs => simp [lexLt] at hab
  | cons a0 as ih =>
    intro b hab hba
    cases b with
    | nil => simp [lexLt] at hba
    | cons b0 bs =>
      simp only [lexLt] at hab hba
      by_cases h1 : a0 < b0
      · simp [h1] at hab
      · by_cases h2 : b0 < a0
        · simp [h2] at hba
        · have h0 : a0 = b0 := le_antisymm (not_lt.mp h2) (not_lt.mp h1)
          simp only [h1, if_false, h2, if_false] at hab hba
          rw [h0, ih bs hab hba]

theorem lexLt_asymm {a b : List Char} (h : lexLt a b = true) : lexLt b a = false := by
  by_contra hc
  have := lexLt_trans a b a h (eq_true_of_ne_false hc)
  simp [lexLt_irrefl] at this

theorem keyLE_total (a b : String) : keyLE a b ∨ keyLE b a := by
  unfold keyLE
  by_cases h : strLtCI b a = false
  · exact Or.inl h
  · refine Or.inr ?_
    unfold strLtCI at h ⊢
    exact lexLt_asymm (eq_true_of_ne_false h)

theorem keyLE_trans {a b c : String} (hab : keyLE a b) (hbc : keyLE b c) : keyLE a c := by
  unfold keyLE strLtCI at hab hbc ⊢
  by_contra hc
  have hca : lexLt (toLowerJS c).data (toLowerJS a).data = true := eq_true_of_ne_false hc
  by_cases hcb : lexLt (toLowerJS b).data (toLowerJS c).data = true
  · rw [lexLt_trans _ _ _ hcb hca] at hab
    simp at hab
  · have := lexLt_connex _ _ (eq_false_of_ne_true hcb) hbc
    rw [this, hca] at hab
    simp at hab

theorem itemLE_total (x y : EnvelopeItem) : itemLE x y ∨ itemLE y x := keyLE_total x.key y.key

theorem itemLE_trans {x y z : EnvelopeItem} (h1 : itemLE x y) (h2 : itemLE y z) : itemLE x z :=
  keyLE_trans h1 h2

/-! Facts about the JS dictionary model. -/

theorem mem_jsInsert {α : Type} {acc : List (String × α)} {k : String} {v : α}
    {p : String × α} (h : p ∈ jsInsert acc k v) : p ∈ acc ∨ p = (k, v) := by
  unfold jsInsert at h
  by_cases hc : acc.any (fun kv => kv.1 == k)
  · rw [if_pos hc] at h
    rcases List.mem_map.mp h with ⟨kv, hkv, heq⟩
    by_cases hk : kv.1 == k
    · rw [if_pos hk] at heq
      exact Or.inr heq.symm
    · rw [if_neg hk] at heq
      exact Or.inl (heq ▸ hkv)
  · rw [if_neg hc] at h
    rcases List.mem_append.mp h with h | h
    · exact Or.inl h
    · exact Or.inr (List.mem_singleton.mp h)

theorem keys_jsInsert {α : Type} (acc : List (String × α)) (k : String) (v : α) :
    (jsInsert acc k v).map Prod.fst =
      if acc.any (fun kv => kv.1 == k) then acc.map Prod.fst
      else acc.map Prod.fst ++ [k] := by
  unfold jsInsert
  by_cases hc : acc.any (fun kv => kv.1 == k)
  · rw [if_pos hc, if_pos hc, List.map_map]
    refine List.map_congr_left fun kv _ => ?_
    by_cases hk : kv.1 == k
    · simp only [Function.comp_apply, if_pos hk]
      exact (beq_iff_eq.mp hk).symm
    · simp only [Function.comp_apply, if_neg hk]
  · rw [if_neg hc, if_neg hc, List.map_append]
    rfl

theorem mem_keys_jsInsert {α : Type} {acc : List (String × α)} {k k' : String} {v : α}
    (h : k' ∈ acc.map Prod.fst) : k' ∈ (jsInsert acc k v).map Prod.fst := by
  rw [keys_jsInsert]
  by_cases hc : acc.any (fun kv => kv.1 == k)
  · rwa [if_pos hc]
  · rw [if_neg hc]
    exact List.mem_append_left _ h

theorem mem_jsMerge {α : Type} {b a : List (String × α)} {p : String × α}
    (h : p ∈ jsMerge a b) : p ∈ a ∨ p ∈ b := by
  induction b generalizing a with
  | nil => exact Or.inl h
  | cons kv rest ih =>
    rcases ih (a := jsInsert a kv.1 kv.2) h with h1 | h1
    · rcases mem_jsInsert h1 with h2 | h2
      · exact Or.inl h2
      · exact Or.inr (by rw [h2]; exact List.mem_cons_self _ _)
    · exact Or.inr (List.mem_cons_of_mem _ h1)

theorem mem_keys_jsMerge_left {α : Type} {a : List (String × α)} (b : List (String × α))
    {k : String} (h : k ∈ a.map Prod.fst) : k ∈ (jsMerge a b).map Prod.fst := by
  induction b generalizing a with
  | nil => exact h
  | cons kv rest ih => exact ih (mem_keys_jsInsert h)

theorem jsLookup_mem {α : Type} {dict : List (String × α)} {k : String} {v : α}
    (h : jsLookup dict k = some v) : (k, v) ∈ dict := by
  unfold jsLookup at h
  rcases Option.map_eq_some'.mp h with ⟨kv, hfind, hv⟩
  have hmem := List.mem_of_find?_eq_some hfind
  have hp := List.find?_some hfind
  obtain ⟨k1, v1⟩ := kv
  have hkey : k1 = k := by simpa using hp
  have hval : v1 = v := hv
  rw [← hkey, ← hval]
  exact hmem

theorem jsLookup_isSome_iff {α : Type} (dict : List (String × α)) (k : String) :
    (jsLookup dict k).isSome ↔ k ∈ dict.map Prod.fst := by
  unfold jsLookup
  rw [Option.isSome_map']
  rw [List.find?_isSome]
  constructor
  · rintro ⟨kv, hkv, hbeq⟩
    exact List.mem_map.mpr ⟨kv, hkv, beq_iff_eq.mp hbeq⟩
  · rintro h
    rcases List.mem_map.mp h with ⟨kv, hkv, hk⟩
    exact ⟨kv, hkv, beq_iff_eq.mpr hk⟩

theorem jsLookup_of_mem_nodup {α : Type} :
    ∀ {dict : List (String × α)} {k : String} {v : α},
      (dict.map Prod.fst).Nodup → (k, v) ∈ dict → jsLookup dict k = some v := by
  intro dict
  induction dict with
  | nil => intro k v _ h; cases h
  | cons kv rest ih =>
    intro k v hnd hmem
    rw [List.map_cons, List.nodup_cons] at hnd
    rcases List.mem_cons.mp hmem with h | h
    · unfold jsLookup
      rw [List.find?_cons_of_pos _ (by rw [← h]; exact beq_self_eq_true k), ← h]
      rfl
    · have hk : ¬ (kv.1 == k) = true := by
        intro he
        refine hnd.1 ?_
        rw [beq_iff_eq.mp he]
        exact List.mem_map.mpr ⟨(k, v), h, rfl⟩
      have hfind : List.find? (fun q => q.1 == k) (kv :: rest)
          = List.find? (fun q => q.1 == k) rest := List.find?_cons_of_neg _ hk
      unfold jsLookup
      rw [hfind]
      exact ih hnd.2 h

theorem jsLookup_perm {α : Type} {l₁ l₂ : List (String × α)} (hp : l₁.Perm l₂)
    (hnd : (l₁.map Prod.fst).Nodup) (k : String) : jsLookup l₁ k = jsLookup l₂ k := by
  have hnd2 : (l₂.map Prod.fst).Nodup := ((hp.map Prod.fst).nodup_iff).mp hnd
  cases hv : jsLookup l₁ k with
  | some v =>
    exact (jsLookup_of_mem_nodup hnd2 (hp.mem_iff.mp (jsLookup_mem hv))).symm
  | none =>
    cases hv2 : jsLookup l₂ k with
    | none => rfl
    | some w =>
      have : k ∈ l₁.map Prod.fst :=
        (hp.map Prod.fst).mem_iff.mpr ((jsLookup_isSome_iff l₂ k).mp (by rw [hv2]; rfl))
      have := (jsLookup_isSome_iff l₁ k).mpr this
      rw [hv] at this
      simp at this

theorem foldl_jsInsert_fresh {α : Type} :
    ∀ (pairs acc : List (String × α)),
      ((acc ++ pairs).map Prod.fst).Nodup →
      pairs.foldl (fun acc kv => jsInsert acc kv.1 kv.2) acc = acc ++ pairs := by
  intro pairs
  induction pairs with
  | nil => intro acc _; simp
  | cons kv rest ih =>
    intro acc hnd
    rw [List.map_append, List.nodup_append] at hnd
    have hnotin : kv.1 ∉ acc.map Prod.fst := by
      intro hin
      exact hnd.2.2 hin (by rw [List.map_cons]; exact List.mem_cons_self _ _)
    have hany : ¬ acc.any (fun p => p.1 == kv.1) = true := by
      intro hany
      rcases List.any_eq_true.mp hany with ⟨p, hp, hbeq⟩
      exact hnotin (List.mem_map.mpr ⟨p, hp, beq_iff_eq.mp hbeq⟩)
    have hstep : jsInsert acc kv.1 kv.2 = acc ++ [kv] := by
      unfold jsInsert
      rw [if_neg hany]
    have hnd2 : (((acc ++ [kv]) ++ rest).map Prod.fst).Nodup := by
      rw [List.append_assoc, List.singleton_append, List.map_append, List.nodup_append]
      exact hnd
    rw [List.foldl_cons, hstep, ih (acc ++ [kv]) hnd2, List.append_assoc,
      List.singleton_append]

/-! Facts about the Scoped-Record Formatter and the Source Partitioner. -/

theorem formatStep_mem {context source : String} {acc : EnvDict} {cur : EnvelopeItem}
    {p : String × EnvVar} (h : p ∈ formatStep context source acc cur) :
    p ∈ acc ∨ p.2.sources = [source] := by
  unfold formatStep at h
  cases hf : findValueInValues cur.values context with
  | none =>
    rw [hf] at h
    exact Or.inl h
  | some v =>
    rw [hf] at h
    rcases mem_jsInsert h with h1 | h1
    · exact Or.inl h1
    · rw [h1]
      exact Or.inr rfl

theorem foldl_formatStep_sources (context source : String) :
    ∀ (l : List EnvelopeItem) (acc : EnvDict),
      (∀ p ∈ acc, p.2.sources = [source]) →
      ∀ p ∈ l.foldl (formatStep context source) acc, p.2.sources = [source] := by
  intro l
  induction l with
  | nil => intro acc hacc p hp; exact hacc p hp
  | cons cur rest ih =>
    intro acc hacc p hp
    refine ih _ (fun q hq => ?_) p hp
    rcases formatStep_mem hq with h1 | h1
    · exact hacc q h1
    · exact h1

theorem formatEnvelopeData_sources (context : String) (items : List EnvelopeItem)
    (scope source : String) :
    ∀ p ∈ formatEnvelopeData context items scope source, p.2.sources = [source] := by
  intro p hp
  exact foldl_formatStep_sources context source _ [] (fun q hq => absurd hq (List.not_mem_nil q)) p hp

theorem formatStep_keys (context source : String) (acc : EnvDict) (cur : EnvelopeItem) :
    (formatStep context source acc cur).map Prod.fst = acc.map Prod.fst
    ∨ (formatStep context source acc cur).map Prod.fst = acc.map Prod.fst ++ [cur.key] := by
  unfold formatStep
  cases hf : findValueInValues cur.values context with
  | none => exact Or.inl rfl
  | some v =>
    rw [keys_jsInsert]
    by_cases h : acc.any (fun kv => kv.1 == cur.key)
    · rw [if_pos h]
      exact Or.inl rfl
    · rw [if_neg h]
      exact Or.inr rfl

theorem foldl_formatStep_keys_sorted (context source : String) :
    ∀ (l : List EnvelopeItem) (acc : EnvDict),
      List.Pairwise itemLE l →
      List.Pairwise keyLE (acc.map Prod.fst) →
      (∀ k ∈ acc.map Prod.fst, ∀ it ∈ l, keyLE k it.key) →
      List.Pairwise keyLE ((l.foldl (formatStep context source) acc).map Prod.fst) := by
  intro l
  induction l with
  | nil => intro acc _ hacc _; exact hacc
  | cons cur rest ih =>
    intro acc hsort hacc hbound
    rw [List.pairwise_cons] at hsort
    rw [List.foldl_cons]
    refine ih (formatStep context source acc cur) hsort.2 ?_ ?_
    · rcases formatStep_keys context source acc cur with h | h
      · rw [h]
        exact hacc
      · rw [h, List.pairwise_append]
        refine ⟨hacc, List.pairwise_singleton _ _, ?_⟩
        intro a ha b hb
        rw [List.mem_singleton] at hb
        rw [hb]
        exact hbound a ha cur (List.mem_cons_self _ _)
    · intro k hk it hit
      rcases formatStep_keys context source acc cur with h | h
      · rw [h] at hk
        exact hbound k hk it (List.mem_cons_of_mem _ hit)
      · rw [h] at hk
        rcases List.mem_append.mp hk with h1 | h1
        · exact hbound k h1 it (List.mem_cons_of_mem _ hit)
        · rw [List.mem_singleton] at h1
          rw [h1]
          exact hsort.1 it hit

theorem formatEnvelopeData_keys_pairwise (context : String) (items : List EnvelopeItem)
    (scope source : String) :
    List.Pairwise keyLE ((formatEnvelopeData context items scope source).map Prod.fst) := by
  unfold formatEnvelopeData
  haveI : IsTotal EnvelopeItem itemLE := ⟨itemLE_total⟩
  haveI : IsTrans EnvelopeItem itemLE := ⟨fun _ _ _ hab hbc => itemLE_trans hab hbc⟩
  refine foldl_formatStep_keys_sorted context source _ [] ?_ List.Pairwise.nil ?_
  · exact List.sorted_insertionSort itemLE _
  · intro k hk
    simp at hk

theorem mem_filterEnvBySource {env : EnvDict} {source : String} {p : String × EnvVar}
    (h : p ∈ filterEnvBySource env source) :
    p ∈ env ∧ p.2.sources.head? = some source := by
  unfold filterEnvBySource at h
  have h2 := List.mem_filter.mp h
  exact ⟨h2.1, by simpa using h2.2⟩

theorem mem_filterEnvBySource_of {env : EnvDict} {source : String} {p : String × EnvVar}
    (henv : p ∈ env) (hsrc : p.2.sources.head? = some source) :
    p ∈ filterEnvBySource env source :=
  List.mem_filter.mpr ⟨henv, by simp [hsrc]⟩

/-! Structure of the Precedence Merger. -/

theorem fetch_some_ok (api : Api) (aid key : String) (siteId : Option String) :
    ∃ items, fetchEnvelopeItems api (some aid) key siteId = .ok (.arr items) := by
  by_cases hk : key ≠ ""
  · cases hc : api.getEnvVar aid key siteId with
    | ok it =>
      refine ⟨[it], ?_⟩
      simp only [fetchEnvelopeItems, if_pos hk, hc]
    | error e =>
      refine ⟨[], ?_⟩
      simp only [fetchEnvelopeItems, if_pos hk, hc]
  · cases hc : api.getEnvVars aid siteId with
    | ok its =>
      refine ⟨its, ?_⟩
      simp only [fetchEnvelopeItems, if_neg hk, hc]
    | error e =>
      refine ⟨[], ?_⟩
      simp only [fetchEnvelopeItems, if_neg hk, hc]

theorem getEnvelopeEnv_ok_of_some (api : Api) (context : String) (env : EnvDict)
    (key scope : String) (siteInfo : SiteInfo) (aid : String)
    (h : siteInfo.account_slug = some aid) :
    ∃ accountItems siteItems,
      fetchEnvelopeItems api (some aid) key none = .ok (.arr accountItems) ∧
      fetchEnvelopeItems api (some aid) key siteInfo.id = .ok (.arr siteItems) ∧
      getEnvelopeEnv api context env key scope siteInfo = .ok
        (jsMerge
          (jsMerge
            (jsMerge
              (jsMerge (filterEnvBySource env "general")
                (formatEnvelopeData context accountItems scope "account"))
              (if includeConfigEnvVars scope then filterEnvBySource env "addons" else []))
            (formatEnvelopeData context siteItems scope "ui"))
          (if includeConfigEnvVars scope then filterEnvBySource env "configFile" else [])) := by
  obtain ⟨l1, h1⟩ := fetch_some_ok api aid key none
  obtain ⟨l2, h2⟩ := fetch_some_ok api aid key siteInfo.id
  refine ⟨l1, l2, h1, h2, ?_⟩
  unfold getEnvelopeEnv
  simp only [h, h1, h2]
  rfl

theorem getEnvelopeEnv_noAccount (api : Api) (context : String) (env : EnvDict)
    (key scope : String) (siteInfo : SiteInfo) (h : siteInfo.account_slug = none) :
    getEnvelopeEnv api context env key scope siteInfo = .error .typeError := by
  unfold getEnvelopeEnv
  rw [h]
  rfl

/-! Facts about the Legacy Translators. -/

theorem translateStep_mongoItem (kv : String × String) (hv : kv.2 ≠ "") (acc : MongoEnv) :
    translateStep "all" acc (mongoItem kv) = jsInsert acc kv.1 kv.2 := by
  unfold translateStep mongoItem
  simp [List.find?, jsOr, allValue, hv]

theorem foldl_translateStep_pairs :
    ∀ (P : List EnvelopeItem) (acc : MongoEnv),
      (∀ it ∈ P, ∃ kv, kv.2 ≠ "" ∧ it = mongoItem kv) →
      P.foldl (translateStep "all") acc
        = (P.map itemPair).foldl (fun acc kv => jsInsert acc kv.1 kv.2) acc := by
  intro P
  induction P with
  | nil => intro acc _; rfl
  | cons cur rest ih =>
    intro acc hgood
    obtain ⟨kv, hv, hcur⟩ := hgood cur (List.mem_cons_self _ _)
    rw [List.foldl_cons, List.map_cons, List.foldl_cons, hcur,
      translateStep_mongoItem kv hv]
    have hpair : itemPair (mongoItem kv) = kv := rfl
    rw [hpair]
    exact ih _ (fun it hit => hgood it (List.mem_cons_of_mem _ hit))

theorem roundTrip_lookup (M : MongoEnv) (hnd : (M.map Prod.fst).Nodup)
    (hv : ∀ kv ∈ M, kv.2 ≠ "") (k : String) :
    jsLookup (translateFromEnvelopeToMongo (translateFromMongoToEnvelope M) "all") k
      = jsLookup M k := by
  unfold translateFromEnvelopeToMongo translateFromMongoToEnvelope
  have hperm : (List.insertionSort itemLE (M.map mongoItem)).Perm (M.map mongoItem) :=
    List.perm_insertionSort itemLE _
  have hgood : ∀ it ∈ List.insertionSort itemLE (M.map mongoItem),
      ∃ kv, kv.2 ≠ "" ∧ it = mongoItem kv := by
    intro it hit
    rcases List.mem_map.mp (hperm.mem_iff.mp hit) with ⟨kv, hkv, hkv2⟩
    exact ⟨kv, hv kv hkv, hkv2.symm⟩
  rw [foldl_translateStep_pairs _ [] hgood]
  have hMeq : (M.map mongoItem).map itemPair = M :=
    (List.map_map itemPair mongoItem M).trans
      ((List.map_congr_left fun kv _ => rfl).trans (List.map_id M))
  have hpairs : ((List.insertionSort itemLE (M.map mongoItem)).map itemPair).Perm M := by
    have h0 := hperm.map itemPair
    rw [hMeq] at h0
    exact h0
  have hndP : (((List.insertionSort itemLE (M.map mongoItem)).map itemPair).map Prod.fst).Nodup :=
    ((hpairs.map Prod.fst).nodup_iff).mpr hnd
  rw [foldl_jsInsert_fresh _ [] (by simpa using hndP), List.nil_append]
  exact jsLookup_perm hpairs hndP k

/-! The claims. -/

/-- C1 counterexample: the round trip is NOT the identity on every flat mapping.
For the mapping binding A to the empty string, the backward translation drops the
key (the JS truthiness check on the value rejects the empty string), so the
result has a smaller key set than the input. -/
theorem claim1_roundTrip_cex :
    translateFromEnvelopeToMongo (translateFromMongoToEnvelope [("A", "")]) "all" = []
    ∧ jsLookup (translateFromEnvelopeToMongo (translateFromMongoToEnvelope [("A", "")]) "all") "A" = none
    ∧ jsLookup [("A", "")] "A" = some "" := by
  decide

/-- C1 (amended): for every flat mapping with unique keys whose values are all
non-empty, translating flat to structured and back with context all reproduces
the mapping exactly, as key set and values (stated as lookup equality at every
key). -/
theorem claim1_roundTrip (M : MongoEnv) (hnd : (M.map Prod.fst).Nodup)
    (hv : ∀ kv ∈ M, kv.2 ≠ "") (k : String) :
    jsLookup (translateFromEnvelopeToMongo (translateFromMongoToEnvelope M) "all") k
      = jsLookup M k :=
  roundTrip_lookup M hnd hv k

/-- C1 witness: the amended round-trip equality at a concrete two-key mapping. -/
theorem claim1_roundTrip_witness :
    jsLookup (translateFromEnvelopeToMongo
        (translateFromMongoToEnvelope [("A", "1"), ("b", "2")]) "all") "A"
      = jsLookup [("A", "1"), ("b", "2")] "A" :=
  claim1_roundTrip [("A", "1"), ("b", "2")] (by decide) (by decide) "A"

/-- C2: contrary to the claim, resolution with an undefined account identifier
does not succeed with the locally-known sources: `fetchEnvelopeItems` returns a
plain object instead of an array, `formatEnvelopeData` calls `.filter` on it, and
`getEnvelopeEnv` throws a `TypeError`, for every api, context, env, key and
scope. -/
theorem claim2_undefinedAccount_typeError (api : Api) (context : String) (env : EnvDict)
    (key scope : String) (siteInfo : SiteInfo) (h : siteInfo.account_slug = none) :
    getEnvelopeEnv api context env key scope siteInfo = .error .typeError :=
  getEnvelopeEnv_noAccount api context env key scope siteInfo h

/-- C2 witness: the failure evaluated at a concrete input with a local general
variable present. -/
theorem claim2_undefinedAccount_typeError_witness :
    getEnvelopeEnv apiEmpty "dev" [("K", localVar "general" "1")] "" "any" siteNoAccount
      = .error .typeError :=
  claim2_undefinedAccount_typeError apiEmpty "dev" [("K", localVar "general" "1")] ""
    "any" siteNoAccount (by decide)

/-- C3 counterexample: a network-class fetch failure does NOT propagate to the
caller; it is swallowed into an ok empty array, refuting the claimed distinction
between permission failures and other failure classes. -/
theorem claim3_network_swallowed_cex :
    fetchEnvelopeItems apiNetworkErr (some "acct") "" none = .ok (.arr [])
    ∧ fetchEnvelopeItems apiNetworkErr (some "acct") "" none
        ≠ .error (.fetchError .network) := by
  decide

/-- C3 (amended): EVERY fetch failure class, permission or otherwise, is
swallowed and treated as an empty result set (the catch has no error-class
test), and with a defined account identifier resolution always succeeds. -/
theorem claim3_all_errors_swallowed (api : Api) (aid key : String)
    (siteId : Option String) (e : FetchError) :
    (key = "" → api.getEnvVars aid siteId = .error e →
      fetchEnvelopeItems api (some aid) key siteId = .ok (.arr []))
    ∧ (key ≠ "" → api.getEnvVar aid key siteId = .error e →
      fetchEnvelopeItems api (some aid) key siteId = .ok (.arr []))
    ∧ ∀ (context : String) (env : EnvDict) (scope : String) (siteInfo : SiteInfo),
        siteInfo.account_slug = some aid →
        ∃ out, getEnvelopeEnv api context env key scope siteInfo = .ok out := by
  refine ⟨?_, ?_, ?_⟩
  · intro hk he
    subst hk
    simp [fetchEnvelopeItems, he]
  · intro hk he
    simp [fetchEnvelopeItems, hk, he]
  · intro context env scope siteInfo hacct
    obtain ⟨l1, l2, _, _, heq⟩ :=
      getEnvelopeEnv_ok_of_some api context env key scope siteInfo aid hacct
    exact ⟨_, heq⟩

/-- C3 witness: the swallow-and-succeed behavior at a concrete always-failing
store client. -/
theorem claim3_all_errors_swallowed_witness :
    fetchEnvelopeItems apiNetworkErr (some "acct") "" none = .ok (.arr [])
    ∧ ∃ out, getEnvelopeEnv apiNetworkErr "dev" [] "" "any" siteBoth = .ok out :=
  ⟨(claim3_all_errors_swallowed apiNetworkErr "acct" "" none .network).1 rfl rfl,
   (claim3_all_errors_swallowed apiNetworkErr "acct" "" none .network).2.2 "dev" [] "any"
     siteBoth rfl⟩

/-- C4 counterexample: with a values sequence containing only an all-tagged value
(no context_parameter) and a requested context that is an arbitrary branch name,
the Value Selector returns nothing: on the branch path a value must also satisfy
the context_parameter equality, which an all value without a parameter never
does. -/
theorem claim4_branch_all_cex :
    ("some-branch" ∉ AVAILABLE_CONTEXTS)
    ∧ findValueInValues [allValue "x"] "some-branch" = none := by
  decide

/-- C4 (amended): a value tagged all is an always-applicable fallback only for
requested contexts among the five enumerated contexts: for those, any values
sequence containing an all-tagged value yields a match. -/
theorem claim4_all_matches_enumerated (values : List EnvValue) (context : String)
    (hctx : context ∈ AVAILABLE_CONTEXTS) (hall : ∃ v ∈ values, v.context = "all") :
    (findValueInValues values context).isSome := by
  unfold findValueInValues
  rw [List.find?_isSome]
  obtain ⟨v, hv, hva⟩ := hall
  refine ⟨v, hv, ?_⟩
  have hc : AVAILABLE_CONTEXTS.contains context = true := List.elem_iff.mpr hctx
  simp [hc, hva]
  exact Or.inl hctx

/-- C4 witness: the amended selector fact at the enumerated context dev. -/
theorem claim4_all_matches_enumerated_witness :
    (findValueInValues [allValue "x"] "dev").isSome :=
  claim4_all_matches_enumerated [allValue "x"] "dev" (by decide)
    ⟨allValue "x", by decide, rfl⟩

/-- C5 counterexample: resolution with context prod differs from resolution with
context production on a site whose only variable is production-tagged, so the
Precedence Merger does not normalize the requested context. -/
theorem claim5_prod_not_normalized_cex :
    getEnvelopeEnv apiProdOnly "prod" [] "" "any" siteBoth
      ≠ getEnvelopeEnv apiProdOnly "production" [] "" "any" siteBoth := by
  decide

/-- C5 (amended): the Context Normalizer itself rewrites prod to production, dp
to deploy-preview and strips a leading branch: marker, but `getEnvelopeEnv` never
applies it: the requested context is matched verbatim, so prod selects nothing
from a production-tagged variable while production selects it. -/
theorem claim5_normalize_not_used :
    normalizeContext "prod" = "production"
    ∧ normalizeContext "dp" = "deploy-preview"
    ∧ (∀ b : String, normalizeContext ("branch:" ++ b) = b)
    ∧ getEnvelopeEnv apiProdOnly "production" [] "" "any" siteBoth
        = .ok [("A", { context := some "production", branch := none,
                       scopes := AVAILABLE_SCOPES, sources := ["ui"], value := "v" })]
    ∧ getEnvelopeEnv apiProdOnly "prod" [] "" "any" siteBoth = .ok [] := by
  refine ⟨by decide, by decide, ?_, by decide, by decide⟩
  intro b
  have hne : ¬("branch:" ++ b = "") := by
    intro h
    have hlen := congrArg String.length h
    rw [String.length_append] at hlen
    rw [show ("branch:" : String).length = 7 from rfl] at hlen
    rw [show ("" : String).length = 0 from rfl] at hlen
    omega
  have hnd : ¬("branch:" ++ b = "dp") := by
    intro h
    have hlen := congrArg String.length h
    rw [String.length_append] at hlen
    rw [show ("branch:" : String).length = 7 from rfl] at hlen
    rw [show ("dp" : String).length = 2 from rfl] at hlen
    omega
  have hnp : ¬("branch:" ++ b = "prod") := by
    intro h
    have hlen := congrArg String.length h
    rw [String.length_append] at hlen
    rw [show ("branch:" : String).length = 7 from rfl] at hlen
    rw [show ("prod" : String).length = 4 from rfl] at hlen
    omega
  have htake : ("branch:" ++ b).data.take 7 = "branch:".data := by
    rw [String.data_append]
    exact List.take_left' rfl
  have hdrop : ("branch:" ++ b).data.drop 7 = b.data := by
    rw [String.data_append]
    exact List.drop_left' rfl
  unfold normalizeContext
  rw [if_neg hne]
  simp only [if_neg hnd, if_neg hnp, if_pos htake, hdrop]

/-- C6: the Precedence Merger layers general, account, addons, ui, configFile in
ascending order with later sources overwriting earlier ones; in the concrete
instance with general A=1, account A=2 and site (ui) A=3 under scope any, the
resolved A carries value 3 and source ui. -/
theorem claim6_precedence :
    (∀ (api : Api) (context : String) (env : EnvDict) (key scope : String)
      (siteInfo : SiteInfo) (aid : String), siteInfo.account_slug = some aid →
      ∃ accountItems siteItems,
        fetchEnvelopeItems api (some aid) key none = .ok (.arr accountItems) ∧
        fetchEnvelopeItems api (some aid) key siteInfo.id = .ok (.arr siteItems) ∧
        getEnvelopeEnv api context env key scope siteInfo = .ok
          (jsMerge
            (jsMerge
              (jsMerge
                (jsMerge (filterEnvBySource env "general")
                  (formatEnvelopeData context accountItems scope "account"))
                (if includeConfigEnvVars scope then filterEnvBySource env "addons" else []))
              (formatEnvelopeData context siteItems scope "ui"))
            (if includeConfigEnvVars scope then filterEnvBySource env "configFile" else [])))
    ∧ getEnvelopeEnv apiPrecedence "dev" [("A", localVar "general" "1")] "" "any" siteBoth
        = .ok [("A", { context := some "all", branch := none, scopes := AVAILABLE_SCOPES,
                       sources := ["ui"], value := "3" })] :=
  ⟨getEnvelopeEnv_ok_of_some, by decide⟩

/-- C6 witness: the merge-order part applied at a concrete input. -/
theorem claim6_precedence_witness :
    ∃ accountItems siteItems,
      fetchEnvelopeItems apiPrecedence (some "acct") "" none = .ok (.arr accountItems) ∧
      fetchEnvelopeItems apiPrecedence (some "acct") "" siteBoth.id = .ok (.arr siteItems) ∧
      getEnvelopeEnv apiPrecedence "dev" [] "" "any" siteBoth = .ok
        (jsMerge
          (jsMerge
            (jsMerge
              (jsMerge (filterEnvBySource [] "general")
                (formatEnvelopeData "dev" accountItems "any" "account"))
              (if includeConfigEnvVars "any" then filterEnvBySource [] "addons" else []))
            (formatEnvelopeData "dev" siteItems "any" "ui"))
          (if includeConfigEnvVars "any" then filterEnvBySource [] "configFile" else [])) :=
  claim6_precedence.1 apiPrecedence "dev" [] "" "any" siteBoth "acct" (by decide)

/-- C7: for every requested scope, the config-file-only key C and the addons key
D are present in the resolution exactly when the scope is one of any, builds,
post_processing; the gate `includeConfigEnvVars` is that membership test; in
particular both keys are absent under scope runtime and present under scope
builds. -/
theorem claim7_configFile_gating :
    (∀ scope : String,
      getEnvelopeEnv apiEmpty "dev"
          [("C", localVar "configFile" "c"), ("D", localVar "addons" "d")] "" scope siteBoth
        = .ok (if includeConfigEnvVars scope
            then [("D", localVar "addons" "d"), ("C", localVar "configFile" "c")] else [])
      ∧ (includeConfigEnvVars scope = true ↔ scope ∈ ["any", "builds", "post_processing"]))
    ∧ getEnvelopeEnv apiEmpty "dev"
        [("C", localVar "configFile" "c"), ("D", localVar "addons" "d")] "" "runtime" siteBoth
        = .ok []
    ∧ getEnvelopeEnv apiEmpty "dev"
        [("C", localVar "configFile" "c"), ("D", localVar "addons" "d")] "" "builds" siteBoth
        = .ok [("D", localVar "addons" "d"), ("C", localVar "configFile" "c")] := by
  refine ⟨?_, by decide, by decide⟩
  intro scope
  constructor
  · obtain ⟨l1, l2, hf1, hf2, heq⟩ :=
      getEnvelopeEnv_ok_of_some apiEmpty "dev"
        [("C", localVar "configFile" "c"), ("D", localVar "addons" "d")] "" scope siteBoth
        "acct" rfl
    have e1 : l1 = [] := by
      have h0 : fetchEnvelopeItems apiEmpty (some "acct") "" none = .ok (.arr []) := rfl
      have := hf1.symm.trans h0
      simpa using this
    have e2 : l2 = [] := by
      have h0 : fetchEnvelopeItems apiEmpty (some "acct") "" siteBoth.id = .ok (.arr []) := rfl
      have := hf2.symm.trans h0
      simpa using this
    subst e1
    subst e2
    rw [heq]
    cases hinc : includeConfigEnvVars scope
    · simp only [hinc, Bool.false_eq_true, if_false]
      rfl
    · simp only [hinc, if_true]
      rfl
  · constructor
    · intro h
      exact List.elem_iff.mp h
    · intro h
      exact List.elem_iff.mpr h

/-- C8 counterexample: the Scope Humanizer renders labels in the order of the
input array, not in the declared order of the enumeration: runtime before builds
stays runtime before builds. -/
theorem claim8_input_order_cex :
    getHumanReadableScopes (some ["runtime", "builds"]) = "Runtime, Builds"
    ∧ getHumanReadableScopes (some ["runtime", "builds"]) ≠ "Builds, Runtime" := by
  decide

/-- C8 (amended): undefined scopes render as "Builds, Post processing"; any
scopes array of length four (in particular the full enumerated set) renders as
"All"; every other scopes array renders as the comma-joined human labels of its
members in the order of the input array. -/
theorem claim8_humanize (l : List String) :
    getHumanReadableScopes none = "Builds, Post processing"
    ∧ (l.length = 4 → getHumanReadableScopes (some l) = "All")
    ∧ (l.length ≠ 4 →
        getHumanReadableScopes (some l) = String.intercalate ", " (l.map humanScope)) := by
  refine ⟨rfl, ?_, ?_⟩ <;> intro h <;> simp [getHumanReadableScopes, h]

/-- C8 witness: the humanizer cases applied at the full scope set and at a
singleton. -/
theorem claim8_humanize_witness :
    getHumanReadableScopes (some ["builds", "functions", "runtime", "post_processing"]) = "All"
    ∧ getHumanReadableScopes (some ["runtime"])
        = String.intercalate ", " (["runtime"].map humanScope) :=
  ⟨(claim8_humanize ["builds", "functions", "runtime", "post_processing"]).2.1 (by decide),
   (claim8_humanize ["runtime"]).2.2 (by decide)⟩

/-- C9: for every input, the keys of the mapping produced by the Scoped-Record
Formatter are pairwise in ascending case-insensitive order, and the concrete keys
b, A, a2 are emitted as A, a2, b. -/
theorem claim9_formatter_sorted :
    (∀ (context : String) (items : List EnvelopeItem) (scope source : String),
      List.Pairwise keyLE ((formatEnvelopeData context items scope source).map Prod.fst))
    ∧ (formatEnvelopeData "dev" [allItem "b" "1", allItem "A" "2", allItem "a2" "3"]
        "any" "ui").map Prod.fst = ["A", "a2", "b"] :=
  ⟨formatEnvelopeData_keys_pairwise, by decide⟩

/-- C10: local entries whose first source is general bypass scope filtering: for
every successful resolution and every entry of the local mapping with first
source general, the output contains the key, bound either to that very entry or
to an overwriting entry from a higher-precedence source (whose first source is
never general). -/
theorem claim10_general_bypasses_scope (api : Api) (context : String) (env : EnvDict)
    (key scope : String) (siteInfo : SiteInfo) (k : String) (v : EnvVar) (out : EnvDict)
    (hnd : (env.map Prod.fst).Nodup) (hmem : (k, v) ∈ env)
    (hsrc : v.sources.head? = some "general")
    (hok : getEnvelopeEnv api context env key scope siteInfo = .ok out) :
    ∃ w, jsLookup out k = some w ∧ (w = v ∨ w.sources.head? ≠ some "general") := by
  cases hacct : siteInfo.account_slug with
  | none =>
    rw [getEnvelopeEnv_noAccount api context env key scope siteInfo hacct] at hok
    simp at hok
  | some aid =>
    obtain ⟨l1, l2, hf1, hf2, heq⟩ :=
      getEnvelopeEnv_ok_of_some api context env key scope siteInfo aid hacct
    rw [heq] at hok
    injection hok with hout
    have hgen : (k, v) ∈ filterEnvBySource env "general" := mem_filterEnvBySource_of hmem hsrc
    have hkey : k ∈ (filterEnvBySource env "general").map Prod.fst :=
      List.mem_map.mpr ⟨(k, v), hgen, rfl⟩
    have hkeyOut : k ∈ out.map Prod.fst := by
      rw [← hout]
      exact mem_keys_jsMerge_left _ (mem_keys_jsMerge_left _
        (mem_keys_jsMerge_left _ (mem_keys_jsMerge_left _ hkey)))
    obtain ⟨w, hw⟩ := Option.isSome_iff_exists.mp ((jsLookup_isSome_iff out k).mpr hkeyOut)
    refine ⟨w, hw, ?_⟩
    have hmemw : (k, w) ∈ out := jsLookup_mem hw
    rw [← hout] at hmemw
    rcases mem_jsMerge hmemw with h1 | hcf
    · rcases mem_jsMerge h1 with h2 | hsite
      · rcases mem_jsMerge h2 with h3 | haddons
        · rcases mem_jsMerge h3 with hgen2 | haccount
          · left
            have henv2 := (mem_filterEnvBySource hgen2).1
            have hv1 := jsLookup_of_mem_nodup hnd henv2
            have hv2 := jsLookup_of_mem_nodup hnd hmem
            exact Option.some.inj (hv1.symm.trans hv2)
          · right
            have := formatEnvelopeData_sources context l1 scope "account" _ haccount
            rw [this]
            simp
        · right
          by_cases hinc : includeConfigEnvVars scope
          · rw [if_pos hinc] at haddons
            rw [(mem_filterEnvBySource haddons).2]
            simp
          · rw [if_neg hinc] at haddons
            cases haddons
      · right
        have := formatEnvelopeData_sources context l2 scope "ui" _ hsite
        rw [this]
        simp
    · right
      by_cases hinc : includeConfigEnvVars scope
      · rw [if_pos hinc] at hcf
        rw [(mem_filterEnvBySource hcf).2]
        simp
      · rw [if_neg hinc] at hcf
        cases hcf

/-- C10 witness: a local general entry with scopes builds survives a resolution
requested with scope runtime. -/
theorem claim10_general_bypasses_scope_witness :
    ∃ w, jsLookup [("K", localVar "general" "1")] "K" = some w
      ∧ (w = localVar "general" "1" ∨ w.sources.head? ≠ some "general") :=
  claim10_general_bypasses_scope apiEmpty "dev" [("K", localVar "general" "1")] "" "runtime"
    siteBoth "K" (localVar "general" "1") [("K", localVar "general" "1")]
    (by decide) (by decide) (by decide) (by decide)

end Cli

